import Mathlib

/-!
# Verification of the `edit` LSP client (`src/lsp.rs`)

A shallow embedding of the protocol-client core of the editor: JSON values
and their wire text (modelling `serde_json`), the `Content-Length` framing
of `send_message`/`read_message`, the shape-discriminated `ServerMessage`
decode, the request correlator (`next_request_id` / `pending_requests`),
the completion-response normalization, and the `run` event loop.
-/

namespace EditLsp

/-- JSON values, modelling `serde_json::Value`.  Numbers are modelled as
integers (`serde_json::Number` restricted to its integer representations;
floating-point payloads are outside the embedding).  Objects are ordered
association lists; a value produced by `serde_json` parsing has sorted,
duplicate-free keys, which is a subset of this type. -/
inductive Json where
  | null : Json
  | bool (b : Bool) : Json
  | num (n : Int) : Json
  | str (s : String) : Json
  | arr (elems : List Json) : Json
  | obj (fields : List (String × Json)) : Json

/-- Decimal digit character for `d < 10`, as `serde_json`/`itoa` emit. -/
def digitChar (d : Nat) : Char := Char.ofNat (48 + d)

/-- Fuel-driven digit expansion, most significant digit first. -/
def natCharsAux : Nat → Nat → List Char
  | 0, _ => []
  | fuel + 1, n =>
    if n < 10 then [digitChar n]
    else natCharsAux fuel (n / 10) ++ [digitChar (n % 10)]

/-- Decimal representation of a natural number, most significant digit
first, as emitted for JSON integers and the `Content-Length` value. -/
def natChars (n : Nat) : List Char := natCharsAux (n + 1) n

/-- Decimal representation of a JSON integer (minus sign for negatives). -/
def intChars (n : Int) : List Char :=
  if n < 0 then '-' :: natChars n.natAbs else natChars n.natAbs

/-- Lowercase hexadecimal digit character for `d < 16`, as `serde_json`
emits in `\u00XX` escapes. -/
def hexChar (d : Nat) : Char :=
  if d < 10 then Char.ofNat (48 + d) else Char.ofNat (87 + d)

/-- String-character escaping of `serde_json`: `"` and `\` are
backslash-escaped, the control characters BS/TAB/LF/FF/CR get their short
escapes, other control characters below `0x20` become `\u00XX`, and every
other character is emitted literally. -/
def escapeChar (c : Char) : List Char :=
  if c = '"' then ['\\', '"']
  else if c = '\\' then ['\\', '\\']
  else if c.toNat = 0x08 then ['\\', 'b']
  else if c.toNat = 0x09 then ['\\', 't']
  else if c.toNat = 0x0a then ['\\', 'n']
  else if c.toNat = 0x0c then ['\\', 'f']
  else if c.toNat = 0x0d then ['\\', 'r']
  else if c.toNat < 0x20 then
    ['\\', 'u', '0', '0', hexChar (c.toNat / 16), hexChar (c.toNat % 16)]
  else [c]

/-- Escape a whole string body. -/
def escapeList : List Char → List Char
  | [] => []
  | c :: cs => escapeChar c ++ escapeList cs

/-- A rendered JSON string literal: quote, escaped body, quote. -/
def strChars (s : String) : List Char :=
  '"' :: escapeList s.data ++ ['"']

mutual

/-- Compact JSON text of a value, modelling `serde_json::to_string`
(no whitespace, object fields in stored order). -/
def renderJson : Json → List Char
  | .null => "null".data
  | .bool b => (if b then "true" else "false").data
  | .num n => intChars n
  | .str s => strChars s
  | .arr [] => ['[', ']']
  | .arr (v :: vs) => '[' :: (renderJson v ++ renderArrTail vs)
  | .obj [] => ['{', '}']
  | .obj (m :: ms) => '{' :: (renderMember m ++ renderObjTail ms)

/-- Remaining array elements after the first: `,e,e…]`. -/
def renderArrTail : List Json → List Char
  | [] => [']']
  | v :: vs => ',' :: (renderJson v ++ renderArrTail vs)

/-- One object member: `"key":value`. -/
def renderMember : String × Json → List Char
  | (k, v) => strChars k ++ ':' :: renderJson v

/-- Remaining object members after the first: `,m,m…}`. -/
def renderObjTail : List (String × Json) → List Char
  | [] => ['}']
  | m :: ms => ',' :: (renderMember m ++ renderObjTail ms)

end

/-! ## JSON parsing, modelling `serde_json::from_str` on the compact text
the client exchanges (no inter-token whitespace, as produced by
`serde_json::to_string`). -/

/-- Numeric value of a decimal digit character. -/
def digitVal (c : Char) : Nat := c.toNat - 48

/-- Greedy decimal-number parse (the integer grammar of JSON numbers and
of the `Content-Length` header value). -/
def parseNat (s : List Char) : Option (Nat × List Char) :=
  let ds := s.takeWhile (·.isDigit)
  if ds.isEmpty then none
  else some (ds.foldl (fun a c => a * 10 + digitVal c) 0, s.dropWhile (·.isDigit))

/-- Value of a hexadecimal digit character, if it is one. -/
def hexVal (c : Char) : Option Nat :=
  if '0' ≤ c ∧ c ≤ '9' then some (c.toNat - 48)
  else if 'a' ≤ c ∧ c ≤ 'f' then some (c.toNat - 87)
  else if 'A' ≤ c ∧ c ≤ 'F' then some (c.toNat - 55)
  else none

/-- The single-character string escapes of JSON. -/
def simpleEscape (e : Char) : Option Char :=
  if e = '"' then some '"'
  else if e = '\\' then some '\\'
  else if e = '/' then some '/'
  else if e = 'b' then some (Char.ofNat 0x08)
  else if e = 't' then some (Char.ofNat 0x09)
  else if e = 'n' then some (Char.ofNat 0x0a)
  else if e = 'f' then some (Char.ofNat 0x0c)
  else if e = 'r' then some (Char.ofNat 0x0d)
  else none

/-- Parse the body of a string literal after its opening quote, returning
the decoded characters and the input remaining after the closing quote. -/
def parseStringBody : List Char → Option (List Char × List Char)
  | [] => none
  | c :: r =>
    if c = '"' then some ([], r)
    else if c = '\\' then
      match r with
      | [] => none
      | e :: r' =>
        if e = 'u' then
          match r' with
          | h1 :: h2 :: h3 :: h4 :: r'' =>
            match hexVal h1, hexVal h2, hexVal h3, hexVal h4 with
            | some a, some b, some c2, some d =>
              let n := ((a * 16 + b) * 16 + c2) * 16 + d
              if Nat.isValidChar n then
                (parseStringBody r'').map (fun p => (Char.ofNat n :: p.1, p.2))
              else none
            | _, _, _, _ => none
          | _ => none
        else
          match simpleEscape e with
          | some ec => (parseStringBody r').map (fun p => (ec :: p.1, p.2))
          | none => none
    else if 0x20 ≤ c.toNat then
      (parseStringBody r).map (fun p => (c :: p.1, p.2))
    else none

/-- Consume an expected literal character sequence. -/
def expectLit : List Char → List Char → Option (List Char)
  | [], s => some s
  | _ :: _, [] => none
  | p :: ps, c :: cs => if c = p then expectLit ps cs else none

mutual

/-- Recursive-descent JSON value parse (fuel-indexed for termination);
returns the value and the unconsumed remainder. -/
def parseVal : Nat → List Char → Option (Json × List Char)
  | 0, _ => none
  | fuel + 1, s =>
    match s with
    | [] => none
    | c :: r =>
      if c = 'n' then (expectLit ['u', 'l', 'l'] r).map (fun r' => (.null, r'))
      else if c = 't' then (expectLit ['r', 'u', 'e'] r).map (fun r' => (.bool true, r'))
      else if c = 'f' then (expectLit ['a', 'l', 's', 'e'] r).map (fun r' => (.bool false, r'))
      else if c = '"' then (parseStringBody r).map (fun p => (.str (String.mk p.1), p.2))
      else if c = '[' then
        if r.head? = some ']' then some (.arr [], r.tail)
        else (parseItems fuel r).map (fun p => (.arr p.1, p.2))
      else if c = '{' then
        if r.head? = some '}' then some (.obj [], r.tail)
        else (parseMembers fuel r).map (fun p => (.obj p.1, p.2))
      else if c = '-' then (parseNat r).map (fun p => (.num (-(p.1 : Int)), p.2))
      else if c.isDigit then (parseNat (c :: r)).map (fun p => (.num (p.1 : Int), p.2))
      else none

/-- Parse one or more comma-separated array elements and the closing `]`. -/
def parseItems : Nat → List Char → Option (List Json × List Char)
  | 0, _ => none
  | fuel + 1, s =>
    (parseVal fuel s).bind (fun p =>
      match p.2 with
      | ',' :: r' => (parseItems fuel r').map (fun q => (p.1 :: q.1, q.2))
      | ']' :: r' => some ([p.1], r')
      | _ => none)

/-- Parse one or more comma-separated object members and the closing `}`. -/
def parseMembers : Nat → List Char → Option (List (String × Json) × List Char)
  | 0, _ => none
  | fuel + 1, s =>
    match s with
    | [] => none
    | c :: r =>
      if c = '"' then
        (parseStringBody r).bind (fun pk =>
          match pk.2 with
          | ':' :: r2 =>
            (parseVal fuel r2).bind (fun pv =>
              match pv.2 with
              | ',' :: r3 =>
                (parseMembers fuel r3).map
                  (fun q => ((String.mk pk.1, pv.1) :: q.1, q.2))
              | '}' :: r3 => some ([(String.mk pk.1, pv.1)], r3)
              | _ => none)
          | _ => none)
      else none

end

/-! ## Framing (`send_message` / `read_message` header handling) -/

/-- The header block emitted by `send_message`:
`Content-Length: <n>\r\n\r\n`. -/
def headerChars (n : Nat) : List Char :=
  ("Content-Length: ".data) ++ natChars n ++ ['\r', '\n', '\r', '\n']

/-- Model of `send_message`: header declaring the body length, then the body.
(The wire is modelled at Unicode-scalar granularity; the declared length
counts scalars, which coincides with the byte count of `str.len()` on
the ASCII output the escaping above produces for the protocol payloads.) -/
def frameEncode (body : List Char) : List Char :=
  headerChars body.length ++ body

/-- Encoding, per the spec: JSON text of the value, framed. -/
def encodeJson (v : Json) : List Char := frameEncode (renderJson v)

/-- One `read_line`: the characters up to and including the first `'\n'`
(or everything, at end of input); `none` models the 0-bytes-read result
on empty input. -/
def readLineM (s : List Char) : Option (List Char × List Char) :=
  match s with
  | [] => none
  | _ =>
    some (s.takeWhile (· ≠ '\n') ++ (s.dropWhile (· ≠ '\n')).take 1,
      (s.dropWhile (· ≠ '\n')).drop 1)

/-- Rust `str::trim` on a header line: strip leading and trailing
whitespace (spaces, `\r`, `\n`, tabs). -/
def isWsChar (c : Char) : Bool :=
  c = ' ' || c = '\t' || c = '\r' || c = '\n'

/-- Strip leading and trailing whitespace characters. -/
def trimChars (s : List Char) : List Char :=
  ((s.dropWhile isWsChar).reverse.dropWhile isWsChar).reverse

/-- Split a trimmed header line at the first `": "` (Rust
`splitn(2, ": ")`), returning key and value when the separator occurs. -/
def splitHeaderLine : List Char → Option (List Char × List Char)
  | [] => none
  | ':' :: ' ' :: rest => some ([], rest)
  | c :: rest => (splitHeaderLine rest).map (fun p => (c :: p.1, p.2))

/-- The header loop of `read_message`: read lines until a blank one,
remembering the last `Content-Length` value.  Returns the declared
length (if any) and the input remaining after the blank line; `none`
models both end-of-stream during the headers and a malformed
`Content-Length` value (collapsing the `Ok(None)` and `Err` exits of
`read_message`, which the claims settled here do not distinguish). -/
def readHeaders : Nat → List Char → Option Nat → Option (Option Nat × List Char)
  | 0, _, _ => none
  | fuel + 1, s, acc =>
    match readLineM s with
    | none => none
    | some (line, rest) =>
      if trimChars line = [] then some (acc, rest)
      else
        match splitHeaderLine (trimChars line) with
        | some (key, value) =>
          if key = "Content-Length".data then
            match parseNat value with
            | some (n, []) => readHeaders fuel rest (some n)
            | _ => none
          else readHeaders fuel rest acc
        | none => readHeaders fuel rest acc

/-- Decode pipeline of `read_message` down to a JSON value: header parse,
then exactly the declared number of body units (`read_exact`; fails when
the stream is shorter), then a complete JSON parse of the body.  Returns
the value and the stream remaining after the message. -/
def frameDecode (s : List Char) : Option (Json × List Char) :=
  match readHeaders (s.length + 1) s none with
  | some (some n, rest) =>
    if n ≤ rest.length then
      match parseVal (n + 1) (rest.take n) with
      | some (v, []) => some (v, rest.drop n)
      | _ => none
    else none
  | _ => none

/-! ## Round-trip lemmas: string escaping -/

theorem hexVal_hexChar {d : Nat} (h : d < 16) : hexVal (hexChar d) = some d := by
  interval_cases d <;> decide

theorem parseStringBody_escape :
    ∀ (cs rest : List Char),
      parseStringBody (escapeList cs ++ '"' :: rest) = some (cs, rest) := by
  intro cs
  induction cs with
  | nil =>
    intro rest
    rw [escapeList, List.nil_append, parseStringBody.eq_def]
    simp
  | cons c cs ih =>
    intro rest
    simp only [escapeList, List.append_assoc]
    by_cases h1 : c = '"'
    · subst h1
      rw [show escapeChar '"' = ['\\', '"'] from rfl, List.cons_append,
        List.cons_append, List.nil_append, parseStringBody.eq_def]
      simp +decide [simpleEscape, ih]
    · by_cases h2 : c = '\\'
      · subst h2
        rw [show escapeChar '\\' = ['\\', '\\'] from rfl, List.cons_append,
          List.cons_append, List.nil_append, parseStringBody.eq_def]
        simp +decide [simpleEscape, ih]
      · by_cases h3 : c.toNat = 0x08
        · have hc : c = Char.ofNat 0x08 := by rw [← h3, Char.ofNat_toNat]
          rw [escapeChar, if_neg h1, if_neg h2, if_pos h3, List.cons_append,
            List.cons_append, List.nil_append, parseStringBody.eq_def]
          simp +decide [simpleEscape, ih, hc]
        · by_cases h4 : c.toNat = 0x09
          · have hc : c = Char.ofNat 0x09 := by rw [← h4, Char.ofNat_toNat]
            rw [escapeChar, if_neg h1, if_neg h2, if_neg h3, if_pos h4,
              List.cons_append, List.cons_append, List.nil_append,
              parseStringBody.eq_def]
            simp +decide [simpleEscape, ih, hc]
          · by_cases h5 : c.toNat = 0x0a
            · have hc : c = Char.ofNat 0x0a := by rw [← h5, Char.ofNat_toNat]
              rw [escapeChar, if_neg h1, if_neg h2, if_neg h3, if_neg h4,
                if_pos h5, List.cons_append, List.cons_append, List.nil_append,
                parseStringBody.eq_def]
              simp +decide [simpleEscape, ih, hc]
            · by_cases h6 : c.toNat = 0x0c
              · have hc : c = Char.ofNat 0x0c := by rw [← h6, Char.ofNat_toNat]
                rw [escapeChar, if_neg h1, if_neg h2, if_neg h3, if_neg h4,
                  if_neg h5, if_pos h6, List.cons_append, List.cons_append,
                  List.nil_append, parseStringBody.eq_def]
                simp +decide [simpleEscape, ih, hc]
              · by_cases h7 : c.toNat = 0x0d
                · have hc : c = Char.ofNat 0x0d := by rw [← h7, Char.ofNat_toNat]
                  rw [escapeChar, if_neg h1, if_neg h2, if_neg h3, if_neg h4,
                    if_neg h5, if_neg h6, if_pos h7, List.cons_append,
                    List.cons_append, List.nil_append, parseStringBody.eq_def]
                  simp +decide [simpleEscape, ih, hc]
                · by_cases h8 : c.toNat < 0x20
                  · have hdiv : c.toNat / 16 < 16 := by omega
                    have hmod : c.toNat % 16 < 16 := Nat.mod_lt _ (by omega)
                    have hvalid : Nat.isValidChar c.toNat := Or.inl (by omega)
                    rw [escapeChar, if_neg h1, if_neg h2, if_neg h3, if_neg h4,
                      if_neg h5, if_neg h6, if_neg h7, if_pos h8]
                    simp only [List.cons_append, List.nil_append]
                    rw [parseStringBody.eq_def]
                    simp +decide only [hexVal_hexChar hdiv, hexVal_hexChar hmod,
                      show hexVal '0' = some 0 from rfl, if_true, if_false,
                      ite_true, ite_false]
                    have hval : ((0 * 16 + 0) * 16 + c.toNat / 16) * 16
                        + c.toNat % 16 = c.toNat := by
                      have := Nat.div_add_mod c.toNat 16
                      omega
                    rw [hval]
                    simp [hvalid, Char.ofNat_toNat, ih]
                  · have h9 : 0x20 ≤ c.toNat := Nat.le_of_not_lt h8
                    rw [escapeChar, if_neg h1, if_neg h2, if_neg h3, if_neg h4,
                      if_neg h5, if_neg h6, if_neg h7, if_neg h8]
                    simp only [List.cons_append, List.nil_append]
                    rw [parseStringBody.eq_def]
                    simp [h1, h2, h9, ih]

/-! ## Round-trip lemmas: decimal numbers -/

/-- The input directly after a rendered token must not begin with a digit
(greedy number parsing stops exactly there); array/object separators and
end of input satisfy this. -/
def noDigitAhead : List Char → Prop
  | [] => True
  | c :: _ => c.isDigit = false

theorem digitChar_isDigit {d : Nat} (h : d < 10) : (digitChar d).isDigit := by
  interval_cases d <;> decide

theorem digitVal_digitChar {d : Nat} (h : d < 10) : digitVal (digitChar d) = d := by
  interval_cases d <;> decide

theorem natCharsAux_mem_isDigit :
    ∀ fuel n c, c ∈ natCharsAux fuel n → c.isDigit := by
  intro fuel
  induction fuel with
  | zero => intro n c hc; simp [natCharsAux] at hc
  | succ f ih =>
    intro n c hc
    by_cases hn : n < 10
    · simp [natCharsAux, hn] at hc
      subst hc
      exact digitChar_isDigit hn
    · simp [natCharsAux, hn] at hc
      rcases hc with hc | hc
      · exact ih _ _ hc
      · subst hc
        exact digitChar_isDigit (Nat.mod_lt _ (by omega))

theorem natCharsAux_ne_nil (fuel n : Nat) : natCharsAux (fuel + 1) n ≠ [] := by
  by_cases hn : n < 10 <;> simp [natCharsAux, hn]

theorem natCharsAux_foldl :
    ∀ fuel n acc, n < 10 ^ fuel →
      (natCharsAux fuel n).foldl (fun a c => a * 10 + digitVal c) acc
        = acc * 10 ^ (natCharsAux fuel n).length + n := by
  intro fuel
  induction fuel with
  | zero =>
    intro n acc h
    interval_cases n
    simp [natCharsAux]
  | succ f ih =>
    intro n acc h
    by_cases hn : n < 10
    · simp [natCharsAux, hn, digitVal_digitChar hn]
    · have hdiv : n / 10 < 10 ^ f := by
        have : n < 10 ^ f * 10 := by
          rw [pow_succ] at h; omega
        omega
      simp only [natCharsAux, hn, if_false, List.foldl_append, List.foldl_cons,
        List.foldl_nil, List.length_append, List.length_cons, List.length_nil]
      rw [ih _ acc hdiv, digitVal_digitChar (Nat.mod_lt _ (by omega))]
      rw [pow_succ]
      have := Nat.div_add_mod n 10
      ring_nf
      omega

theorem takeWhile_digits_append {L rest : List Char}
    (hL : ∀ c ∈ L, c.isDigit) (hrest : noDigitAhead rest) :
    (L ++ rest).takeWhile (·.isDigit) = L
      ∧ (L ++ rest).dropWhile (·.isDigit) = rest := by
  induction L with
  | nil =>
    cases rest with
    | nil => simp
    | cons c cs =>
      simp only [noDigitAhead] at hrest
      simp [List.takeWhile, List.dropWhile, hrest]
  | cons c cs ih =>
    have hc : c.isDigit := hL c (by simp)
    have ih' := ih (fun x hx => hL x (by simp [hx]))
    simp [List.takeWhile, List.dropWhile, hc, ih'.1, ih'.2]

theorem parseNat_natChars (n : Nat) {rest : List Char} (h : noDigitAhead rest) :
    parseNat (natChars n ++ rest) = some (n, rest) := by
  have hlt : n < 10 ^ (n + 1) := by
    calc n < 10 ^ n := Nat.lt_pow_self (by norm_num) n
    _ ≤ 10 ^ (n + 1) := Nat.pow_le_pow_right (by norm_num) (by omega)
  have hmem : ∀ c ∈ natChars n, c.isDigit :=
    fun c hc => natCharsAux_mem_isDigit _ _ _ hc
  obtain ⟨htake, hdrop⟩ := takeWhile_digits_append hmem h
  have hne : natChars n ≠ [] := natCharsAux_ne_nil n n
  simp only [parseNat, htake, hdrop, List.isEmpty_iff, hne, if_false]
  rw [show natChars n = natCharsAux (n + 1) n from rfl,
    natCharsAux_foldl (n + 1) n 0 hlt]
  simp

theorem parseNat_first_digit {n : Nat} {rest : List Char} :
    ∃ c cs, natChars n ++ rest = c :: cs ∧ c.isDigit := by
  cases hnc : natChars n with
  | nil => exact absurd hnc (natCharsAux_ne_nil n n)
  | cons c cs =>
    exact ⟨c, cs ++ rest, by simp [hnc],
      natCharsAux_mem_isDigit (n + 1) n c (by
        rw [show natCharsAux (n + 1) n = natChars n from rfl, hnc]; simp)⟩

/-! ## Round-trip lemmas: values -/

theorem expectLit_append (ps rest : List Char) :
    expectLit ps (ps ++ rest) = some rest := by
  induction ps with
  | nil => rfl
  | cons p ps ih => simp [expectLit, ih]

theorem string_mk_data (s : String) : String.mk s.data = s := rfl

/-- The first character of any rendered JSON value; in particular it is
never a closing bracket, so the empty-collection lookahead in `parseVal`
is not taken for a nonempty collection. -/
theorem renderJson_shape (v : Json) :
    ∃ c cs, renderJson v = c :: cs ∧ c ≠ ']' ∧ c ≠ '}' := by
  cases v with
  | null => exact ⟨'n', _, rfl, by decide, by decide⟩
  | bool b => cases b with
    | true => exact ⟨'t', _, rfl, by decide, by decide⟩
    | false => exact ⟨'f', _, rfl, by decide, by decide⟩
  | num n =>
    by_cases hn : n < 0
    · exact ⟨'-', natChars n.natAbs, by simp [renderJson, intChars, hn],
        by decide, by decide⟩
    · obtain ⟨c, cs, hshape, hdig⟩ := @parseNat_first_digit n.natAbs []
      rw [List.append_nil] at hshape
      refine ⟨c, cs, by simp [renderJson, intChars, hn, hshape], ?_, ?_⟩
      · intro h; subst h; exact absurd hdig (by decide)
      · intro h; subst h; exact absurd hdig (by decide)
  | str s => exact ⟨'"', _, rfl, by decide, by decide⟩
  | arr l => cases l with
    | nil => exact ⟨'[', _, rfl, by decide, by decide⟩
    | cons v vs => exact ⟨'[', _, rfl, by decide, by decide⟩
  | obj l => cases l with
    | nil => exact ⟨'{', _, rfl, by decide, by decide⟩
    | cons m ms => exact ⟨'{', _, rfl, by decide, by decide⟩

theorem renderJson_length_pos (v : Json) : 0 < (renderJson v).length := by
  obtain ⟨c, cs, h, -, -⟩ := renderJson_shape v
  simp [h]

theorem renderArrTail_length_pos (vs : List Json) :
    0 < (renderArrTail vs).length := by
  cases vs <;> simp [renderArrTail]

theorem renderObjTail_length_pos (ms : List (String × Json)) :
    0 < (renderObjTail ms).length := by
  cases ms <;> simp [renderObjTail]

/-- When the head character is a decimal digit, `parseVal` takes the
number branch. -/
theorem parseVal_digit_head {f : Nat} {c : Char} {r : List Char}
    (hc : c.isDigit) :
    parseVal (f + 1) (c :: r)
      = (parseNat (c :: r)).map (fun p => (.num (p.1 : Int), p.2)) := by
  have hn : c ≠ 'n' := fun h => by subst h; exact absurd hc (by decide)
  have ht : c ≠ 't' := fun h => by subst h; exact absurd hc (by decide)
  have hf : c ≠ 'f' := fun h => by subst h; exact absurd hc (by decide)
  have hq : c ≠ '"' := fun h => by subst h; exact absurd hc (by decide)
  have hl : c ≠ '[' := fun h => by subst h; exact absurd hc (by decide)
  have hb : c ≠ '{' := fun h => by subst h; exact absurd hc (by decide)
  have hm : c ≠ '-' := fun h => by subst h; exact absurd hc (by decide)
  rw [parseVal.eq_def]
  simp [hn, ht, hf, hq, hl, hb, hm, hc]

theorem noDigitAhead_arrTail (vs : List Json) (rest : List Char) :
    noDigitAhead (renderArrTail vs ++ rest) := by
  cases vs <;> simp [renderArrTail, noDigitAhead]

theorem noDigitAhead_objTail (ms : List (String × Json)) (rest : List Char) :
    noDigitAhead (renderObjTail ms ++ rest) := by
  cases ms <;> simp [renderObjTail, noDigitAhead]

/-- Renderer/parser round trip for JSON values, array tails and object
tails, simultaneously by induction on the parser fuel: any fuel at least
the rendered length suffices, and parsing stops exactly where the
rendered text ends. -/
theorem parse_render (fuel : Nat) :
    (∀ v rest, (renderJson v).length ≤ fuel → noDigitAhead rest →
      parseVal fuel (renderJson v ++ rest) = some (v, rest))
    ∧ (∀ v vs rest,
        (renderJson v ++ renderArrTail vs).length ≤ fuel → noDigitAhead rest →
        parseItems fuel (renderJson v ++ (renderArrTail vs ++ rest))
          = some (v :: vs, rest))
    ∧ (∀ k jv ms rest,
        (renderMember (k, jv) ++ renderObjTail ms).length ≤ fuel →
        noDigitAhead rest →
        parseMembers fuel (renderMember (k, jv) ++ (renderObjTail ms ++ rest))
          = some ((k, jv) :: ms, rest)) := by
  induction fuel with
  | zero =>
    refine ⟨fun v rest hlen _ => absurd hlen ?_,
      fun v vs rest hlen _ => absurd hlen ?_,
      fun k jv ms rest hlen _ => absurd hlen ?_⟩
    · have := renderJson_length_pos v; omega
    · simp only [List.length_append]
      have := renderJson_length_pos v; omega
    · simp only [List.length_append]
      have := renderObjTail_length_pos ms; omega
  | succ f ih =>
    obtain ⟨ihV, ihI, ihM⟩ := ih
    refine ⟨?_, ?_, ?_⟩
    · -- values
      intro v rest hlen hrest
      cases v with
      | null =>
        rw [show renderJson .null ++ rest = 'n' :: ('u' :: 'l' :: 'l' :: rest)
          from rfl, parseVal.eq_def]
        simp +decide [expectLit]
      | bool b =>
        cases b with
        | true =>
          rw [show renderJson (.bool true) ++ rest
            = 't' :: ('r' :: 'u' :: 'e' :: rest) from rfl, parseVal.eq_def]
          simp +decide [expectLit]
        | false =>
          rw [show renderJson (.bool false) ++ rest
            = 'f' :: ('a' :: 'l' :: 's' :: 'e' :: rest) from rfl,
            parseVal.eq_def]
          simp +decide [expectLit]
      | num n =>
        by_cases hn : n < 0
        · rw [show renderJson (.num n) ++ rest
            = '-' :: (natChars n.natAbs ++ rest) by
              simp [renderJson, intChars, hn], parseVal.eq_def]
          simp +decide only [if_true, if_false, ite_true, ite_false]
          rw [parseNat_natChars n.natAbs hrest, Option.map_some']
          have hval : -((n.natAbs : Nat) : Int) = n := by omega
          rw [hval]
        · obtain ⟨c, cs, hsh, hdig⟩ :=
            @parseNat_first_digit n.natAbs []
          rw [List.append_nil] at hsh
          rw [show renderJson (.num n) ++ rest = c :: (cs ++ rest) by
              simp [renderJson, intChars, hn, hsh],
            parseVal_digit_head hdig,
            show c :: (cs ++ rest) = natChars n.natAbs ++ rest by simp [hsh],
            parseNat_natChars n.natAbs hrest]
          have hval : ((n.natAbs : Nat) : Int) = n := by omega
          simp [hval]
      | str s =>
        rw [show renderJson (.str s) ++ rest
            = '"' :: (escapeList s.data ++ '"' :: rest) by
            simp [renderJson, strChars], parseVal.eq_def]
        simp +decide [parseStringBody_escape]
      | arr l =>
        cases l with
        | nil =>
          rw [show renderJson (.arr []) ++ rest = '[' :: (']' :: rest)
            from rfl, parseVal.eq_def]
          simp +decide
        | cons v vs =>
          obtain ⟨c0, cs0, hv0, hne1, hne2⟩ := renderJson_shape v
          have hlen' : (renderJson v ++ renderArrTail vs).length ≤ f := by
            simp only [renderJson, List.length_cons] at hlen
            omega
          rw [show renderJson (.arr (v :: vs)) ++ rest
              = '[' :: (renderJson v ++ (renderArrTail vs ++ rest)) by
              simp [renderJson], parseVal.eq_def]
          have hhead : (renderJson v ++ (renderArrTail vs ++ rest)).head?
              = some c0 := by simp [hv0]
          simp +decide only [if_true, if_false, ite_true, ite_false, hhead,
            Option.some.injEq, hne1]
          rw [ihI v vs rest hlen' hrest]
          rfl
      | obj l =>
        cases l with
        | nil =>
          rw [show renderJson (.obj []) ++ rest = '{' :: ('}' :: rest)
            from rfl, parseVal.eq_def]
          simp +decide
        | cons m ms =>
          obtain ⟨k, jv⟩ := m
          have hlen' : (renderMember (k, jv) ++ renderObjTail ms).length ≤ f := by
            simp only [renderJson, List.length_cons] at hlen
            omega
          rw [show renderJson (.obj ((k, jv) :: ms)) ++ rest
              = '{' :: (renderMember (k, jv) ++ (renderObjTail ms ++ rest)) by
              simp [renderJson], parseVal.eq_def]
          have hhead : (renderMember (k, jv) ++ (renderObjTail ms ++ rest)).head?
              = some '"' := by simp [renderMember, strChars]
          simp +decide only [if_true, if_false, ite_true, ite_false, hhead,
            Option.some.injEq]
          rw [ihM k jv ms rest hlen' hrest]
          rfl
    · -- array tails
      intro v vs rest hlen hrest
      have htail := renderArrTail_length_pos vs
      have hlenv : (renderJson v).length ≤ f := by
        simp only [List.length_append] at hlen; omega
      rw [show parseItems (f + 1) (renderJson v ++ (renderArrTail vs ++ rest))
          = (parseVal f (renderJson v ++ (renderArrTail vs ++ rest))).bind
              (fun p =>
                match p.2 with
                | ',' :: r' => (parseItems f r').map (fun q => (p.1 :: q.1, q.2))
                | ']' :: r' => some ([p.1], r')
                | _ => none) from rfl,
        ihV v (renderArrTail vs ++ rest) hlenv (noDigitAhead_arrTail vs rest)]
      cases vs with
      | nil => simp [renderArrTail]
      | cons v' vs' =>
        have hlen' : (renderJson v' ++ renderArrTail vs').length ≤ f := by
          simp only [renderArrTail, List.length_append, List.length_cons] at hlen ⊢
          omega
        simp only [renderArrTail, List.cons_append, List.append_assoc,
          Option.some_bind]
        rw [ihI v' vs' rest hlen' hrest]
        rfl
    · -- object tails
      intro k jv ms rest hlen hrest
      have htail := renderObjTail_length_pos ms
      have hlenjv : (renderJson jv).length ≤ f := by
        simp only [renderMember, strChars, List.length_append,
          List.length_cons] at hlen
        omega
      rw [show renderMember (k, jv) ++ (renderObjTail ms ++ rest)
          = '"' :: (escapeList k.data
              ++ '"' :: (':' :: (renderJson jv ++ (renderObjTail ms ++ rest)))) by
          simp [renderMember, strChars], parseMembers.eq_def]
      simp +decide only [if_true, if_false, ite_true, ite_false]
      rw [parseStringBody_escape k.data
        (':' :: (renderJson jv ++ (renderObjTail ms ++ rest)))]
      simp only [Option.some_bind]
      rw [ihV jv (renderObjTail ms ++ rest) hlenjv (noDigitAhead_objTail ms rest)]
      simp only [Option.some_bind]
      cases ms with
      | nil => simp [renderObjTail, string_mk_data]
      | cons m' ms' =>
        obtain ⟨k', jv'⟩ := m'
        have hlen' : (renderMember (k', jv') ++ renderObjTail ms').length ≤ f := by
          simp only [renderObjTail, List.length_append, List.length_cons] at hlen ⊢
          omega
        simp only [renderObjTail, List.cons_append, List.append_assoc]
        rw [ihM k' jv' ms' rest hlen' hrest]
        simp [string_mk_data]

/-! ## Round-trip lemmas: framing headers -/

theorem takeWhile_append_all {p : Char → Bool} :
    ∀ {L R : List Char}, (∀ c ∈ L, p c = true) →
      (L ++ R).takeWhile p = L ++ R.takeWhile p := by
  intro L
  induction L with
  | nil => intro R _; simp
  | cons c t ih =>
    intro R h
    have hc : p c = true := h c (by simp)
    simp [List.takeWhile, hc, ih fun x hx => h x (by simp [hx])]

theorem dropWhile_append_all {p : Char → Bool} :
    ∀ {L R : List Char}, (∀ c ∈ L, p c = true) →
      (L ++ R).dropWhile p = R.dropWhile p := by
  intro L
  induction L with
  | nil => intro R _; simp
  | cons c t ih =>
    intro R h
    have hc : p c = true := h c (by simp)
    simp [List.dropWhile, hc, ih fun x hx => h x (by simp [hx])]

theorem not_ws_of_digit {c : Char} (h : c.isDigit) : isWsChar c = false := by
  have h1 : c ≠ ' ' := fun e => by subst e; exact absurd h (by decide)
  have h2 : c ≠ '\t' := fun e => by subst e; exact absurd h (by decide)
  have h3 : c ≠ '\r' := fun e => by subst e; exact absurd h (by decide)
  have h4 : c ≠ '\n' := fun e => by subst e; exact absurd h (by decide)
  simp [isWsChar, h1, h2, h3, h4]

theorem not_newline_of_digit {c : Char} (h : c.isDigit) :
    decide (c ≠ '\n') = true := by
  have h4 : c ≠ '\n' := fun e => by subst e; exact absurd h (by decide)
  simp [h4]

theorem readLineM_split {L R : List Char}
    (h : ∀ c ∈ L, decide (c ≠ '\n') = true) :
    readLineM (L ++ '\n' :: R) = some (L ++ ['\n'], R) := by
  obtain ⟨c, t, hct⟩ : ∃ c t, L ++ '\n' :: R = c :: t := by
    cases L with
    | nil => exact ⟨'\n', R, rfl⟩
    | cons c t => exact ⟨c, t ++ '\n' :: R, rfl⟩
  rw [readLineM.eq_def, hct, ← hct]
  rw [takeWhile_append_all h, dropWhile_append_all h]
  simp [List.takeWhile, List.dropWhile]

theorem natChars_no_newline (n : Nat) :
    ∀ c ∈ natChars n, decide (c ≠ '\n') = true :=
  fun c hc => not_newline_of_digit (natCharsAux_mem_isDigit _ _ c hc)

theorem trim_header_line (n : Nat) :
    trimChars ('C' :: 'o' :: 'n' :: 't' :: 'e' :: 'n' :: 't' :: '-' :: 'L' :: 'e'
        :: 'n' :: 'g' :: 't' :: 'h' :: ':' :: ' ' :: (natChars n ++ ['\r', '\n']))
      = 'C' :: 'o' :: 'n' :: 't' :: 'e' :: 'n' :: 't' :: '-' :: 'L' :: 'e'
        :: 'n' :: 'g' :: 't' :: 'h' :: ':' :: ' ' :: natChars n := by
  rw [show ('C' :: 'o' :: 'n' :: 't' :: 'e' :: 'n' :: 't' :: '-' :: 'L' :: 'e'
        :: 'n' :: 'g' :: 't' :: 'h' :: ':' :: ' ' :: (natChars n ++ ['\r', '\n']))
      = ("Content-Length: ".data ++ natChars n ++ ['\r']) ++ ['\n'] by simp]
  rw [show ('C' :: 'o' :: 'n' :: 't' :: 'e' :: 'n' :: 't' :: '-' :: 'L' :: 'e'
        :: 'n' :: 'g' :: 't' :: 'h' :: ':' :: ' ' :: natChars n)
      = "Content-Length: ".data ++ natChars n by simp]
  obtain ⟨d, T, hdT⟩ : ∃ d T, (natChars n).reverse = d :: T := by
    cases hrev : (natChars n).reverse with
    | nil =>
      exact absurd (by simpa using congrArg List.reverse hrev)
        (natCharsAux_ne_nil n n)
    | cons d T => exact ⟨d, T, rfl⟩
  have hd : d.isDigit := by
    have : d ∈ (natChars n).reverse := by rw [hdT]; simp
    exact natCharsAux_mem_isDigit _ _ d (List.mem_reverse.mp this)
  have hstep1 :
      (("Content-Length: ".data ++ natChars n ++ ['\r']) ++ ['\n']).dropWhile
          isWsChar
        = ("Content-Length: ".data ++ natChars n ++ ['\r']) ++ ['\n'] := by
    rw [show ("Content-Length: ".data ++ natChars n ++ ['\r']) ++ ['\n']
      = 'C' :: ("ontent-Length: ".data ++ natChars n ++ ['\r'] ++ ['\n']) by
        simp]
    simp [List.dropWhile, isWsChar]
  rw [trimChars, hstep1]
  rw [show ("Content-Length: ".data ++ natChars n ++ ['\r']) ++ ['\n']
    = "Content-Length: ".data ++ (natChars n ++ ['\r', '\n']) by simp]
  rw [List.reverse_append, List.reverse_append]
  rw [show (['\r', '\n'] : List Char).reverse = ['\n', '\r'] from rfl]
  rw [show (['\n', '\r'] ++ (natChars n).reverse)
      ++ ("Content-Length: ".data).reverse
    = '\n' :: '\r' :: ((natChars n).reverse
        ++ ("Content-Length: ".data).reverse) by simp]
  rw [show List.dropWhile isWsChar ('\n' :: '\r' :: ((natChars n).reverse
        ++ ("Content-Length: ".data).reverse))
    = List.dropWhile isWsChar ((natChars n).reverse
        ++ ("Content-Length: ".data).reverse) by
      simp [List.dropWhile, isWsChar]]
  rw [hdT, List.cons_append,
    List.dropWhile_cons_of_neg (by simp [not_ws_of_digit hd])]
  rw [show d :: (T ++ ("Content-Length: ".data).reverse)
    = (d :: T) ++ ("Content-Length: ".data).reverse by simp]
  rw [List.reverse_append, ← hdT]
  simp

theorem splitHeaderLine_cl (n : Nat) :
    splitHeaderLine ('C' :: 'o' :: 'n' :: 't' :: 'e' :: 'n' :: 't' :: '-' :: 'L' :: 'e'
        :: 'n' :: 'g' :: 't' :: 'h' :: ':' :: ' ' :: natChars n)
      = some (['C', 'o', 'n', 't', 'e', 'n', 't', '-', 'L', 'e', 'n', 'g',
          't', 'h'], natChars n) := by
  simp +decide [splitHeaderLine]

theorem readHeaders_blank (f : Nat) (body : List Char) (acc : Option Nat) :
    readHeaders (f + 1) ('\r' :: '\n' :: body) acc = some (acc, body) := by
  rw [readHeaders, show ('\r' :: '\n' :: body) = ['\r'] ++ '\n' :: body by simp,
    readLineM_split (by intro c hc; fin_cases hc; decide)]
  simp [show trimChars ['\r', '\n'] = [] from rfl]

theorem readHeaders_encode (f n : Nat) (body : List Char) (acc : Option Nat) :
    readHeaders (f + 2) (headerChars n ++ body) acc = some (some n, body) := by
  have hline1 : ∀ c ∈ "Content-Length: ".data ++ natChars n ++ ['\r'],
      decide (c ≠ '\n') = true := by
    intro c hc
    simp only [List.mem_append] at hc
    rcases hc with (hc | hc) | hc
    · fin_cases hc <;> decide
    · exact natChars_no_newline n c hc
    · simp at hc; subst hc; decide
  have hsplit : headerChars n ++ body
      = ("Content-Length: ".data ++ natChars n ++ ['\r'])
        ++ '\n' :: ('\r' :: '\n' :: body) := by
    simp [headerChars]
  have hne : "Content-Length: ".data ++ natChars n ≠ [] := by simp
  have hp : parseNat (natChars n) = some (n, []) := by
    have h0 := @parseNat_natChars n [] (by trivial)
    simpa using h0
  rw [readHeaders, hsplit, readLineM_split hline1]
  simp [trim_header_line n, hne, splitHeaderLine_cl n, hp, readHeaders_blank]

/-- C4: Framing round-trip: decoding — header parse, then reading
exactly the declared number of body units, then JSON parse — applied to
the bytes produced by encoding a JSON value (its canonical JSON text
prefixed with `Content-Length: <length>\r\n\r\n`) yields an equal value,
with the whole message consumed. -/
theorem framing_roundtrip (v : Json) :
    frameDecode (encodeJson v) = some (v, []) := by
  have hpos : 0 < (headerChars (renderJson v).length ++ renderJson v).length := by
    simp [headerChars]
  have hfuel : (headerChars (renderJson v).length ++ renderJson v).length + 1
      = ((headerChars (renderJson v).length ++ renderJson v).length - 1) + 2 := by
    omega
  have hPV : parseVal ((renderJson v).length + 1) (renderJson v)
      = some (v, []) := by
    have h := (parse_render ((renderJson v).length + 1)).1 v [] (by omega) trivial
    simpa using h
  rw [show encodeJson v
      = headerChars (renderJson v).length ++ renderJson v from rfl,
    frameDecode, hfuel, readHeaders_encode]
  simp [hPV, List.take_length, List.drop_length]




/-! ## Inbound message shapes (`ServerMessage`, lines 37–42) -/

/-- The two inbound message shapes of `enum ServerMessage`. -/
inductive ServerMsg where
  | response (id : Nat) (result : Json)
  | notification (method : String) (params : Json)

/-- Field lookup in a JSON object (`serde_json` maps have unique keys;
the first occurrence is used). -/
def lookupField (fields : List (String × Json)) (k : String) : Option Json :=
  (fields.find? (fun m => m.1 = k)).map (·.2)

/-- Field lookup on a JSON value (none on non-objects). -/
def jsonField (v : Json) (k : String) : Option Json :=
  match v with
  | .obj fields => lookupField fields k
  | _ => none

/-- Extraction of a `u64` from a JSON value, as serde performs for `id: u64`:
the value must be a non-negative integer below `2^64`. -/
def asU64 : Json → Option Nat
  | .num n => if 0 ≤ n ∧ n < (2 : Int) ^ 64 then some n.toNat else none
  | _ => none

/-- Shape-discriminated decode of `ServerMessage` (`#[serde(untagged)]`):
the `Response` variant — an object carrying a `u64` `id` and a `result`
field — is attempted first; only if it does not apply is the
`Notification` variant — a string `method` and a `params` field —
tried. -/
def serverMessageOfJson : Json → Option ServerMsg
  | .obj fields =>
    match (lookupField fields "id").bind asU64, lookupField fields "result" with
    | some i, some r => some (.response i r)
    | _, _ =>
      match lookupField fields "method", lookupField fields "params" with
      | some (.str m), some p => some (.notification m p)
      | _, _ => none
  | _ => none

/-- Model of `read_message` end to end: framing decode, then the shape-
discriminated `ServerMessage` decode of the body. -/
def readMessageM (s : List Char) : Option (ServerMsg × List Char) :=
  (frameDecode s).bind
    (fun p => (serverMessageOfJson p.1).map (fun m => (m, p.2)))

/-- C5: Shape discrimination of inbound messages: an object carrying
a `u64` `id` field and a `result` field decodes as a `Response` with
that id and result — regardless of any `method`/`params` fields also
present, i.e. the `Response` shape is attempted first; an object
carrying `method` and `params` for which the `Response` shape does not
apply decodes as a `Notification`. -/
theorem serverMessage_shape_discrimination :
    (∀ (fields : List (String × Json)) (i : Nat) (r : Json),
        lookupField fields "id" = some (.num (i : Int)) → i < 2 ^ 64 →
        lookupField fields "result" = some r →
        serverMessageOfJson (.obj fields) = some (.response i r))
    ∧ (∀ (fields : List (String × Json)) (m : String) (p : Json),
        ((lookupField fields "id").bind asU64 = none
          ∨ lookupField fields "result" = none) →
        lookupField fields "method" = some (.str m) →
        lookupField fields "params" = some p →
        serverMessageOfJson (.obj fields) = some (.notification m p)) := by
  constructor
  · intro fields i r hid hlt hres
    have hbind : (lookupField fields "id").bind asU64 = some i := by
      rw [hid]
      have hcond : (0 : Int) ≤ (i : Int) ∧ (i : Int) < (2 : Int) ^ 64 :=
        ⟨Int.natCast_nonneg i, by exact_mod_cast hlt⟩
      rw [Option.some_bind, asU64, if_pos hcond, Int.toNat_natCast]
    simp [serverMessageOfJson, hbind, hres]
  · intro fields m p hfail hm hp
    cases hid : (lookupField fields "id").bind asU64 with
    | none =>
      cases hres : lookupField fields "result" with
      | none => simp [serverMessageOfJson, hid, hres, hm, hp]
      | some r => simp [serverMessageOfJson, hid, hres, hm, hp]
    | some i =>
      cases hres : lookupField fields "result" with
      | none => simp [serverMessageOfJson, hid, hres, hm, hp]
      | some r =>
        rcases hfail with hfail | hfail
        · rw [hfail] at hid; exact absurd hid (by simp)
        · rw [hfail] at hres; exact absurd hres (by simp)

/-- Closed witness for C5: a message carrying both shapes resolves as a
`Response`; one carrying only `method`/`params` as a `Notification`. -/
theorem serverMessage_shape_discrimination_witness :
    serverMessageOfJson (.obj [("id", .num 3), ("result", .null),
        ("method", .str "m"), ("params", .null)])
      = some (.response 3 .null)
    ∧ serverMessageOfJson (.obj [("method", .str "m"), ("params", .null)])
      = some (.notification "m" .null) :=
  ⟨serverMessage_shape_discrimination.1 _ 3 .null rfl (by norm_num) rfl,
    serverMessage_shape_discrimination.2 _ "m" .null (Or.inl rfl) rfl rfl⟩

/-! ## Completion normalization (`completion`, lines 165–194) -/

/-- Completion items.  Modelled from the spec: an ordered candidate list;
only the required `label` field of `lsp_types::CompletionItem` is
modelled (its many optional fields do not affect the normalization the
claims concern). -/
structure CompItem where
  label : String

/-- Decode one completion item (requires its `label`). -/
def completionItemOfJson : Json → Option CompItem
  | .obj fields =>
    match lookupField fields "label" with
    | some (.str l) => some ⟨l⟩
    | _ => none
  | _ => none

/-- Decode a list of completion items (each must decode). -/
def completionItemsList : List Json → Option (List CompItem)
  | [] => some []
  | j :: js =>
    match completionItemOfJson j, completionItemsList js with
    | some it, some its => some (it :: its)
    | _, _ => none

/-- Decode a bare array of completion items. -/
def completionItemsOfJson : Json → Option (List CompItem)
  | .arr elems => completionItemsList elems
  | _ => none

/-- The reply normalization in `completion`: deserialize as
`lsp_types::CompletionResponse` (untagged — the bare `Array` variant is
attempted first, else the `List` variant `{isIncomplete, items}`) and
return the items in order, dropping the `isIncomplete` flag. -/
def normalizeCompletionReply (v : Json) : Option (List CompItem) :=
  match completionItemsOfJson v with
  | some items => some items
  | none =>
    match v with
    | .obj fields =>
      match lookupField fields "isIncomplete",
          (lookupField fields "items").bind completionItemsOfJson with
      | some (.bool _), some items => some items
      | _, _ => none
    | _ => none

/-- C6: Completion shape normalization: a reply that is a bare array
of items normalizes to exactly those items in order; a reply shaped
`{isIncomplete, items}` normalizes to exactly its items in order,
whatever the truncation flag is. -/
theorem completion_shape_normalization :
    (∀ (ejs : List Json) (items : List CompItem),
        completionItemsList ejs = some items →
        normalizeCompletionReply (.arr ejs) = some items)
    ∧ (∀ (fields : List (String × Json)) (b : Bool) (ejs : List Json)
        (items : List CompItem),
        completionItemsList ejs = some items →
        lookupField fields "isIncomplete" = some (.bool b) →
        lookupField fields "items" = some (.arr ejs) →
        normalizeCompletionReply (.obj fields) = some items) := by
  constructor
  · intro ejs items hmap
    simp [normalizeCompletionReply, completionItemsOfJson, hmap]
  · intro fields b ejs items hmap hflag hitems
    simp [normalizeCompletionReply, completionItemsOfJson, hflag, hitems, hmap]

/-- Closed witness for C6: a two-item bare array, and the same items
under `{isIncomplete: true, items: …}`. -/
theorem completion_shape_normalization_witness :
    normalizeCompletionReply (.arr [.obj [("label", .str "a")],
        .obj [("label", .str "b")]])
      = some [⟨"a"⟩, ⟨"b"⟩]
    ∧ normalizeCompletionReply (.obj [("isIncomplete", .bool true),
        ("items", .arr [.obj [("label", .str "a")],
          .obj [("label", .str "b")]])])
      = some [⟨"a"⟩, ⟨"b"⟩] :=
  ⟨completion_shape_normalization.1
      [.obj [("label", .str "a")], .obj [("label", .str "b")]]
      [⟨"a"⟩, ⟨"b"⟩] rfl,
    completion_shape_normalization.2 _ true
      [.obj [("label", .str "a")], .obj [("label", .str "b")]]
      [⟨"a"⟩, ⟨"b"⟩] rfl rfl rfl⟩

/-! ## `did_open` (lines 138–147) -/

/-- The `textDocument/didOpen` notification built by `did_open`:
`TextDocumentItem::new(uri, "rust", 1, text)` serialized under the
JSON-RPC notification envelope of `send_notification`. -/
def didOpenMessage (uri text : String) : Json :=
  .obj [("jsonrpc", .str "2.0"), ("method", .str "textDocument/didOpen"),
    ("params", .obj [("textDocument", .obj [("uri", .str uri),
      ("languageId", .str "rust"), ("version", .num 1),
      ("text", .str text)])])]

/-- C10: For every `did_open(uri, text)`, the outbound
`textDocument/didOpen` notification declares `languageId` `"rust"` and
`version` `1`, whatever the uri and text are. -/
theorem didOpen_fixed_language_and_version (uri text : String) :
    jsonField (didOpenMessage uri text) "method"
        = some (.str "textDocument/didOpen")
    ∧ ((jsonField (didOpenMessage uri text) "params").bind
        (fun p => jsonField p "textDocument")).bind
          (fun d => jsonField d "languageId") = some (.str "rust")
    ∧ ((jsonField (didOpenMessage uri text) "params").bind
        (fun p => jsonField p "textDocument")).bind
          (fun d => jsonField d "version") = some (.num 1) :=
  ⟨rfl, rfl, rfl⟩

/-! ## Request correlator (`next_request_id` / `pending_requests`) -/

/-- Correlator state with ghost history: the live counter and pending-map
keys, plus the ids of all outbound requests (`sentIds`, in send order)
and of all responses already matched and delivered (`resolvedIds`). -/
structure CorrState where
  nextRequestId : Nat
  pendingIds : List Nat
  sentIds : List Nat
  resolvedIds : List Nat

/-- Client construction (`LspClient::new`): counter starts at 1, empty
pending map. -/
def corrInit : CorrState := ⟨1, [], [], []⟩

/-- Model of `send_request` (lines 84–103): take the current id, bump the counter
by one, insert the pending entry, emit the request. -/
def corrSendRequest (s : CorrState) : CorrState :=
  { nextRequestId := s.nextRequestId + 1
    pendingIds := s.nextRequestId :: s.pendingIds
    sentIds := s.sentIds ++ [s.nextRequestId]
    resolvedIds := s.resolvedIds }

/-- Model of `send_notification` (lines 105–112): no id allocated, no entry. -/
def corrSendNotification (s : CorrState) : CorrState := s

/-- Outcome of handling a `Response` (lines 227–233). -/
inductive ResolveOutcome where
  | delivered
  | unknownLogged

/-- Model of `handle_server_message` on `Response{id, ..}`: remove the entry and
deliver on its channel when present; warn-log and drop otherwise. -/
def corrResolveO (id : Nat) (s : CorrState) : CorrState × ResolveOutcome :=
  if id ∈ s.pendingIds then
    ({ s with
        pendingIds := s.pendingIds.erase id
        resolvedIds := s.resolvedIds ++ [id] }, .delivered)
  else (s, .unknownLogged)

/-- The operations that touch the correlator. -/
inductive CorrOp where
  | sendRequest
  | sendNotification
  | response (id : Nat)

/-- One correlator operation. -/
def corrStep (s : CorrState) : CorrOp → CorrState
  | .sendRequest => corrSendRequest s
  | .sendNotification => corrSendNotification s
  | .response id => (corrResolveO id s).1

/-- A whole history of operations from client construction. -/
def corrRun (ops : List CorrOp) : CorrState := ops.foldl corrStep corrInit

/-- Number of requests (not notifications, not inbound responses) in a
history. -/
def reqCount (ops : List CorrOp) : Nat :=
  ops.countP (fun o => match o with | .sendRequest => true | _ => false)

theorem corrRun_sent_aux :
    ∀ (ops : List CorrOp) (s : CorrState),
      (ops.foldl corrStep s).sentIds
          = s.sentIds ++ List.range' s.nextRequestId (reqCount ops)
        ∧ (ops.foldl corrStep s).nextRequestId
          = s.nextRequestId + reqCount ops := by
  intro ops
  induction ops with
  | nil => intro s; simp [reqCount]
  | cons op ops ih =>
    intro s
    simp only [List.foldl_cons]
    cases op with
    | sendRequest =>
      obtain ⟨h1, h2⟩ := ih (corrStep s .sendRequest)
      constructor
      · rw [h1]
        simp [corrStep, corrSendRequest, reqCount, List.countP_cons,
          List.range'_succ]
      · rw [h2]
        simp [corrStep, corrSendRequest, reqCount, List.countP_cons]
        omega
    | sendNotification =>
      obtain ⟨h1, h2⟩ := ih (corrStep s .sendNotification)
      constructor
      · rw [h1]; simp [corrStep, corrSendNotification, reqCount, List.countP_cons]
      · rw [h2]; simp [corrStep, corrSendNotification, reqCount, List.countP_cons]
    | response id =>
      obtain ⟨h1, h2⟩ := ih (corrStep s (.response id))
      have hsent : (corrStep s (.response id)).sentIds = s.sentIds := by
        simp only [corrStep, corrResolveO]
        split <;> rfl
      have hnext : (corrStep s (.response id)).nextRequestId
          = s.nextRequestId := by
        simp only [corrStep, corrResolveO]
        split <;> rfl
      constructor
      · rw [h1, hsent, hnext]; simp [reqCount, List.countP_cons]
      · rw [h2, hnext]; simp [reqCount, List.countP_cons]

/-- C7: The request-identifier counter starts at 1 and is bumped by
exactly one per outbound request and by nothing else, so any history of
operations containing N requests (interleaved arbitrarily with
notifications and inbound responses) issues exactly the identifiers
1,…,N in order — strictly increasing, hence pairwise distinct — and
leaves the counter at 1+N. -/
theorem request_ids_strictly_increasing (ops : List CorrOp) :
    (corrRun ops).sentIds = List.range' 1 (reqCount ops)
    ∧ (corrRun ops).sentIds.Pairwise (· < ·)
    ∧ (corrRun ops).nextRequestId = 1 + reqCount ops := by
  obtain ⟨h1, h2⟩ := corrRun_sent_aux ops corrInit
  have hsent : (corrRun ops).sentIds = List.range' 1 (reqCount ops) := by
    simpa [corrRun, corrInit] using h1
  refine ⟨hsent, ?_, by simpa [corrRun, corrInit] using h2⟩
  rw [hsent]
  exact List.pairwise_lt_range' 1 (reqCount ops)

/-- C8: Resolving a response whose id has no matching pending entry
is a warn-logged no-op: the outcome is not an error, and the state — in
particular every other pending entry — is left unchanged. -/
theorem unknown_id_resolution_safe (id : Nat) (s : CorrState)
    (h : id ∉ s.pendingIds) : corrResolveO id s = (s, .unknownLogged) := by
  simp [corrResolveO, h]

/-- Closed witness for C8: resolving never-issued id 7 against a state
with pending entries 1 and 2. -/
theorem unknown_id_resolution_safe_witness :
    corrResolveO 7 ⟨3, [1, 2], [1, 2], []⟩
      = (⟨3, [1, 2], [1, 2], []⟩, .unknownLogged) :=
  unknown_id_resolution_safe 7 ⟨3, [1, 2], [1, 2], []⟩ (by decide)

/-- The pending-map invariant of the data model section of the spec:
every pending id
was sent exactly once and not yet resolved; ids are never re-issued
(`sentIds` duplicate-free), every resolution happens at most once
(`resolvedIds` duplicate-free), resolved ids are no longer pending, and
every issued id is below the counter. -/
def CorrInv (s : CorrState) : Prop :=
  s.sentIds.Nodup
  ∧ s.pendingIds.Nodup
  ∧ (∀ id ∈ s.pendingIds, s.sentIds.count id = 1)
  ∧ (∀ id ∈ s.pendingIds, id ∉ s.resolvedIds)
  ∧ s.resolvedIds.Nodup
  ∧ (∀ id ∈ s.resolvedIds, id ∈ s.sentIds)
  ∧ (∀ id ∈ s.sentIds, id < s.nextRequestId)
  ∧ (∀ id ∈ s.pendingIds, id ∈ s.sentIds)

theorem corrStep_preserves (s : CorrState) (op : CorrOp) (h : CorrInv s) :
    CorrInv (corrStep s op) := by
  obtain ⟨hsn, hpn, hcount, hpr, hrn, hrs, hlt, hps⟩ := h
  cases op with
  | sendNotification => exact ⟨hsn, hpn, hcount, hpr, hrn, hrs, hlt, hps⟩
  | sendRequest =>
    have hfresh : s.nextRequestId ∉ s.sentIds :=
      fun hmem => absurd (hlt _ hmem) (lt_irrefl _)
    have hfreshp : s.nextRequestId ∉ s.pendingIds :=
      fun hmem => absurd (hlt _ (hps _ hmem)) (lt_irrefl _)
    have hfreshr : s.nextRequestId ∉ s.resolvedIds :=
      fun hmem => absurd (hlt _ (hrs _ hmem)) (lt_irrefl _)
    refine ⟨?_, ?_, ?_, ?_, hrn, ?_, ?_, ?_⟩
    · exact (List.nodup_append).mpr ⟨hsn, List.nodup_singleton _,
        fun a ha hb => by
          simp only [List.mem_singleton] at hb
          subst hb
          exact hfresh ha⟩
    · exact List.nodup_cons.mpr ⟨hfreshp, hpn⟩
    · intro x hx
      simp only [corrStep, corrSendRequest, List.mem_cons] at hx ⊢
      rcases hx with rfl | hx
      · rw [List.count_append, List.count_eq_zero.mpr hfresh]
        simp
      · rw [List.count_append, hcount x hx]
        have hne : x ≠ s.nextRequestId :=
          fun e => hfresh (e ▸ hps x hx)
        simp [List.count_singleton', hne]
    · intro x hx
      simp only [corrStep, corrSendRequest, List.mem_cons] at hx ⊢
      rcases hx with rfl | hx
      · exact hfreshr
      · exact hpr x hx
    · intro x hx
      exact List.mem_append_left _ (hrs x hx)
    · intro x hx
      simp only [corrStep, corrSendRequest, List.mem_append,
        List.mem_singleton] at hx ⊢
      rcases hx with hx | rfl
      · exact Nat.lt_succ_of_lt (hlt x hx)
      · exact Nat.lt_succ_self _
    · intro x hx
      simp only [corrStep, corrSendRequest, List.mem_cons] at hx
      simp only [corrStep, corrSendRequest, List.mem_append,
        List.mem_singleton]
      rcases hx with rfl | hx
      · exact Or.inr rfl
      · exact Or.inl (hps x hx)
  | response rid =>
    by_cases hrid : rid ∈ s.pendingIds
    · simp only [corrStep, corrResolveO, if_pos hrid]
      refine ⟨hsn, hpn.erase rid, ?_, ?_, ?_, ?_, hlt, ?_⟩
      · intro x hx
        exact hcount x (List.mem_of_mem_erase hx)
      · intro x hx
        obtain ⟨hne, hmem⟩ := (hpn.mem_erase_iff).mp hx
        simp only [List.mem_append, List.mem_singleton]
        rintro (hin | hxeq)
        · exact hpr x hmem hin
        · exact hne hxeq
      · exact (List.nodup_append).mpr ⟨hrn, List.nodup_singleton _,
          fun a ha hb => by
            simp only [List.mem_singleton] at hb
            exact hpr rid hrid (hb ▸ ha)⟩
      · intro x hx
        simp only [List.mem_append, List.mem_singleton] at hx
        rcases hx with hx | hxeq
        · exact hrs x hx
        · exact hxeq ▸ hps rid hrid
      · intro x hx
        exact hps x (List.mem_of_mem_erase hx)
    · simp only [corrStep, corrResolveO, if_neg hrid]
      exact ⟨hsn, hpn, hcount, hpr, hrn, hrs, hlt, hps⟩

/-- C3: The pending-map invariant holds after any history of
correlator operations from client construction: each pending id had
exactly one outbound request and no processed response; entries are
removed at most once (resolutions are duplicate-free) and only by
resolution; resolved ids are never still pending and ids are never
reused. -/
theorem pending_map_invariant (ops : List CorrOp) : CorrInv (corrRun ops) := by
  have step : ∀ (l : List CorrOp) (s : CorrState),
      CorrInv s → CorrInv (l.foldl corrStep s) := by
    intro l
    induction l with
    | nil => intro s h; exact h
    | cons op l ih => intro s h; exact ih _ (corrStep_preserves s op h)
  refine step ops corrInit ⟨?_, ?_, ?_, ?_, ?_, ?_, ?_, ?_⟩ <;> simp [corrInit]

/-! ## The event loop (`run`, lines 196–219) -/

/-- Application intents (`enum LspMessage`). -/
inductive Intent where
  | didChange (uri text : String) (version : Int)
  | completionReq (uri : String) (line character : Nat)

/-- What one `read_message` poll yields in the transport model: a decoded
message, a decode failure (`Err` — the length-correct but malformed body
has already been consumed from the stream), or, once the list is
exhausted, end of stream (`Ok(None)`). -/
inductive ReadResult where
  | msg (m : ServerMsg)
  | decodeErr

/-- Where control of `run` currently is: at the top of the loop
(`select!`), suspended inside the Completion intent arm on
`response_rx.recv().await`, parked forever on an intent queue that will
never yield again (with the transport branch disabled for the current
select), or exited. -/
inductive LoopMode where
  | select
  | awaitReply (id : Nat)
  | blocked
  | exited

/-- The event-loop state: control mode, the intents still to arrive on
`rx` (with whether the queue is then closed), the transport stream, the
correlator, and the observable effects — outbound messages, values
delivered into pending channels, `LspResponse` sends to the editor, and
routed notifications. -/
structure LoopState where
  mode : LoopMode
  intents : List Intent
  intentsClosed : Bool
  transport : List ReadResult
  corr : CorrState
  outbound : List Json
  delivered : List (Nat × Json)
  editorResponses : List (List CompItem)
  notificationsSeen : List (String × Json)

/-- The `textDocument/didChange` notification built by `did_change`
(whole-document replacement). -/
def didChangeMessage (uri text : String) (version : Int) : Json :=
  .obj [("jsonrpc", .str "2.0"), ("method", .str "textDocument/didChange"),
    ("params", .obj [
      ("textDocument", .obj [("uri", .str uri), ("version", .num version)]),
      ("contentChanges", .arr [.obj [("text", .str text)]])])]

/-- The `textDocument/completion` request built by `completion`. -/
def completionRequestMessage (id : Nat) (uri : String)
    (line character : Nat) : Json :=
  .obj [("jsonrpc", .str "2.0"), ("id", .num id),
    ("method", .str "textDocument/completion"),
    ("params", .obj [
      ("textDocument", .obj [("uri", .str uri)]),
      ("position", .obj [("line", .num line),
        ("character", .num character)])])]

/-- Model of `handle_client_message`: a DidChange intent sends a notification and
the arm completes; a Completion intent runs `completion`, which sends a
request (registering the fresh id) and then awaits the correlated reply
*inside the arm* — the mode moves to `awaitReply`. -/
def handleIntent (s : LoopState) : Intent → LoopState
  | .didChange uri text version =>
    { s with outbound := s.outbound ++ [didChangeMessage uri text version] }
  | .completionReq uri line character =>
    { s with
        corr := corrSendRequest s.corr
        outbound := s.outbound
          ++ [completionRequestMessage s.corr.nextRequestId uri line character]
        mode := .awaitReply s.corr.nextRequestId }

/-- Model of `handle_server_message`: a Response resolves its pending entry (the
result is sent into the channel) or is warn-logged and dropped; a
Notification is routed (`handle_notification`). -/
def handleServer (s : LoopState) : ServerMsg → LoopState
  | .response rid result =>
    let r := corrResolveO rid s.corr
    { s with
        corr := r.1
        delivered :=
          match r.2 with
          | .delivered => s.delivered ++ [(rid, result)]
          | .unknownLogged => s.delivered }
  | .notification method params =>
    { s with notificationsSeen := s.notificationsSeen ++ [(method, params)] }

/-- One whole `select!` invocation of `run`, with its arm body run as far
as it goes without suspending (`pickIntentFirst` resolves the race when
both branches are ready, as the unbiased tokio select may pick either):

* at `awaitReply id`, the arm resumes only if the reply for `id` was
  already delivered on its channel — which can never happen while the
  loop itself is suspended here — and otherwise stays suspended;
* a `decodeErr` at the transport head is consumed when the transport
  side is polled; the branch is then disabled for this invocation, so
  the select can only complete via an intent (or, with the queue closed
  and empty, run the `else` branch and exit);
* end of stream (`Ok(None)`) fails the `Ok(Some(msg))` pattern and
  disables the transport branch without consuming anything. -/
def loopStep (pickIntentFirst : Bool) (s : LoopState) : LoopState :=
  match s.mode with
  | .exited => s
  | .blocked => s
  | .awaitReply id =>
    match s.delivered.find? (fun p => p.1 = id) with
    | some p =>
      match normalizeCompletionReply p.2 with
      | some items =>
        { s with
            mode := .select
            editorResponses := s.editorResponses ++ [items] }
      | none => { s with mode := .select }
    | none => s
  | .select =>
    match s.transport with
    | .decodeErr :: t' =>
      match s.intents with
      | i :: rest =>
        if pickIntentFirst then handleIntent { s with intents := rest } i
        else handleIntent { s with transport := t', intents := rest } i
      | [] =>
        if s.intentsClosed then { s with transport := t', mode := .exited }
        else { s with transport := t', mode := .blocked }
    | .msg m :: t' =>
      match s.intents with
      | i :: rest =>
        if pickIntentFirst then handleIntent { s with intents := rest } i
        else handleServer { s with transport := t' } m
      | [] => handleServer { s with transport := t' } m
    | [] =>
      match s.intents with
      | i :: rest => handleIntent { s with intents := rest } i
      | [] =>
        if s.intentsClosed then { s with mode := .exited }
        else { s with mode := .blocked }

/-- Run the loop under an explicit schedule of race outcomes. -/
def loopRun (sched : List Bool) (s : LoopState) : LoopState :=
  sched.foldl (fun s b => loopStep b s) s

theorem loopRun_fixed {s : LoopState} (h : ∀ b, loopStep b s = s) :
    ∀ sched, loopRun sched s = s := by
  intro sched
  induction sched with
  | nil => rfl
  | cons b sched ih =>
    show loopRun sched (loopStep b s) = s
    rw [h b]
    exact ih

/-! ## Claims about the event loop -/

/-- A freshly constructed client about to `run` with one Completion
intent queued and, on the transport, the well-formed server reply to
the request that intent will send (id 1). -/
def c1Init : LoopState :=
  { mode := .select
    intents := [.completionReq "file:///a.rs" 0 3]
    intentsClosed := false
    transport := [.msg (.response 1 (.arr []))]
    corr := corrInit
    outbound := []
    delivered := []
    editorResponses := []
    notificationsSeen := [] }

/-- The state after the select dequeues the Completion intent (an
outcome the unbiased tokio select is free to choose): the request was
sent, id 1 registered, and the arm is suspended awaiting the reply. -/
def c1Await : LoopState := loopStep true c1Init

/-- C1 evaluation: Handling a Completion intent blocks the loop: the
reply awaited inside the intent arm can only be delivered by the loop's
own transport dispatch, which cannot run while the arm is suspended.
From `c1Await` every schedule leaves the state unchanged — the response
for id 1 sits on the transport forever, the pending entry is never
resolved, and no completion ever reaches the editor — contradicting the
claim that the awaited correlated reply can still be received. -/
theorem completion_await_deadlocks :
    c1Await.mode = .awaitReply 1
    ∧ c1Await.corr.pendingIds = [1]
    ∧ c1Await.transport = [.msg (.response 1 (.arr []))]
    ∧ (∀ sched : List Bool, loopRun sched c1Await = c1Await)
    ∧ (∀ sched : List Bool, (loopRun sched c1Await).delivered = []
        ∧ (loopRun sched c1Await).editorResponses = []) := by
  have hfix : ∀ b, loopStep b c1Await = c1Await := fun b => rfl
  refine ⟨rfl, rfl, rfl, loopRun_fixed hfix, fun sched => ?_⟩
  rw [loopRun_fixed hfix sched]
  exact ⟨rfl, rfl⟩

/-- C2 amended: When the transport reports end-of-stream with the
intent queue closed, the loop runs its `else` branch and exits, leaving
the correlator — in particular every pending entry — exactly as it was
and delivering nothing: there is no drain of the pending map in `run`. -/
theorem shutdown_leaves_pending_intact (corr0 : CorrState) (b : Bool) :
    loopStep b
      { mode := .select, intents := [], intentsClosed := true,
        transport := [], corr := corr0, outbound := [], delivered := [],
        editorResponses := [], notificationsSeen := [] }
      = { mode := .exited, intents := [], intentsClosed := true,
          transport := [], corr := corr0, outbound := [], delivered := [],
          editorResponses := [], notificationsSeen := [] } := rfl

/-- Closed witness for the C2 amendment at a concrete state. -/
theorem shutdown_leaves_pending_intact_witness :
    loopStep true
      { mode := .select, intents := [], intentsClosed := true,
        transport := [], corr := ⟨3, [1, 2], [1, 2], []⟩, outbound := [],
        delivered := [], editorResponses := [], notificationsSeen := [] }
      = { mode := .exited, intents := [], intentsClosed := true,
          transport := [], corr := ⟨3, [1, 2], [1, 2], []⟩, outbound := [],
          delivered := [], editorResponses := [], notificationsSeen := [] } :=
  shutdown_leaves_pending_intact ⟨3, [1, 2], [1, 2], []⟩ true

/-- End of stream while requests 1 and 2 are pending. -/
def c2Init : LoopState :=
  { mode := .select
    intents := []
    intentsClosed := true
    transport := []
    corr := ⟨3, [1, 2], [1, 2], []⟩
    outbound := []
    delivered := []
    editorResponses := []
    notificationsSeen := [] }

/-- C2 counterexample: With K = 2 requests pending at end-of-stream,
the loop exits with both entries still in the pending map — not removed
— and no failure outcome was delivered to either waiter, so it is false
that `drain_with_error` removes every remaining pending entry and that
every caller receives a failure outcome. -/
theorem shutdown_no_drain_counterexample :
    (loopRun [true] c2Init).mode = .exited
    ∧ (loopRun [true] c2Init).corr.pendingIds = [1, 2]
    ∧ (loopRun [true] c2Init).corr.pendingIds ≠ []
    ∧ (loopRun [true] c2Init).delivered = [] :=
  ⟨rfl, rfl, by decide, rfl⟩

/-- Decode failure arriving when the intent queue is already closed and
empty, with a further well-formed response behind it. -/
def c9Init : LoopState :=
  { mode := .select
    intents := []
    intentsClosed := true
    transport := [.decodeErr, .msg (.response 1 .null)]
    corr := ⟨2, [1], [1], []⟩
    outbound := []
    delivered := []
    editorResponses := []
    notificationsSeen := [] }

/-- C9 counterexample: A length-correct but malformed body is not
merely dropped: its `Err` disables the transport branch, and with the
intent queue closed and empty every branch is disabled, so the `else`
arm exits the loop — the well-formed response behind the malformed one
is never processed and the pending entry never resolves, contradicting
the claim that the loop continues processing subsequent transport
messages after any decode failure. -/
theorem decode_failure_fatal_counterexample :
    (loopRun [false] c9Init).mode = .exited
    ∧ (loopRun [false] c9Init).transport = [.msg (.response 1 .null)]
    ∧ (loopRun [false] c9Init).corr.pendingIds = [1]
    ∧ (loopRun [false] c9Init).delivered = [] :=
  ⟨rfl, rfl, rfl, rfl⟩

/-- Decode failure racing with an available DidChange intent, a
well-formed notification behind it. -/
def c9bInit : LoopState :=
  { mode := .select
    intents := [.didChange "file:///a.rs" "fn main() {}" 2]
    intentsClosed := true
    transport := [.decodeErr, .msg (.notification "window/logMessage" .null)]
    corr := corrInit
    outbound := []
    delivered := []
    editorResponses := []
    notificationsSeen := [] }

/-- C9 amended: A decode failure is non-fatal exactly while the
select can still complete through the intent branch: the malformed
message is consumed and silently dropped, the intent is handled, and the
next loop iteration reads the transport again, so the following
well-formed message is processed (first conjunct, concretely). But when
the intent queue is closed and empty, a decode failure disables every
branch and the loop exits with the rest of the stream unread (second
conjunct, in general). -/
theorem decode_failure_locally_nonfatal :
    ((loopRun [false, false, false] c9bInit).mode = .exited
      ∧ (loopRun [false, false, false] c9bInit).outbound
          = [didChangeMessage "file:///a.rs" "fn main() {}" 2]
      ∧ (loopRun [false, false, false] c9bInit).notificationsSeen
          = [("window/logMessage", .null)]
      ∧ (loopRun [false, false, false] c9bInit).transport = [])
    ∧ (∀ (t' : List ReadResult) (corr0 : CorrState) (b : Bool),
        loopStep b
          { mode := .select, intents := [], intentsClosed := true,
            transport := .decodeErr :: t', corr := corr0, outbound := [],
            delivered := [], editorResponses := [],
            notificationsSeen := [] }
          = { mode := .exited, intents := [], intentsClosed := true,
              transport := t', corr := corr0, outbound := [],
              delivered := [], editorResponses := [],
              notificationsSeen := [] }) :=
  ⟨⟨rfl, rfl, rfl, rfl⟩, fun _ _ _ => rfl⟩

end EditLsp
